import Mathlib

/-!
Shallow embedding of the flexboxController layout engine.

The definitions below are translated from the JavaScript sources
src/runtime/ui_layout.js (class UILayout) and src/runtime/instance.js
(the controller behaviour).  Numbers are modelled as exact rationals;
JavaScript strings are modelled as Lean strings, processed at the
character-list level so that everything reduces in the kernel.  A
JavaScript value that may be undefined is modelled as an Option.
-/

set_option linter.unusedVariables false

/-- JavaScript values stored in style maps: numbers, strings, booleans. -/
inductive Val where
  | num (q : ℚ)
  | str (s : String)
  | bool (b : Bool)
deriving DecidableEq, Repr

/-- ASCII digit test, mirroring the \d character class used by the source regexes. -/
def isAsciiDigit (c : Char) : Bool := decide ('0' ≤ c) && decide (c ≤ '9')

/-- Decimal value of a digit list (used to evaluate matched number literals). -/
def digitsToNat (cs : List Char) : Nat :=
  cs.foldl (fun a c => a * 10 + (c.toNat - 48)) 0

/-- Value of a fractional digit block fs, namely fs / 10 ^ length. -/
def fracVal (fs : List Char) : ℚ :=
  (digitsToNat fs : ℚ) / ((10 : ℚ) ^ fs.length)

/-- Character-level whitespace trim, mirroring String.prototype.trim on the
ASCII whitespace that occurs in style text. -/
def trimChars (cs : List Char) : List Char :=
  ((cs.dropWhile Char.isWhitespace).reverse.dropWhile Char.isWhitespace).reverse

/-- Split a character list on a separator character.  Mirrors
String.prototype.split with a one-character separator: n separators yield
n + 1 (possibly empty) fields. -/
def splitOnChar (sep : Char) : List Char → List (List Char)
  | [] => [[]]
  | c :: rest =>
    if c = sep then [] :: splitOnChar sep rest
    else
      match splitOnChar sep rest with
      | [] => [[c]]
      | f :: fs => (c :: f) :: fs

/-- Split on runs of whitespace, dropping empty fields.  Mirrors
String.prototype.split(/\s+/) on input that was already trimmed and is
non-empty, which is how parseFlexShorthand receives its value. -/
def wsSplitAux : List Char → List Char → List (List Char)
  | [], acc => if acc.isEmpty then [] else [acc.reverse]
  | c :: rest, acc =>
    if c.isWhitespace then
      if acc.isEmpty then wsSplitAux rest []
      else acc.reverse :: wsSplitAux rest []
    else wsSplitAux rest (c :: acc)

def wsSplit (cs : List Char) : List (List Char) := wsSplitAux cs []

/-- Matches the anchored regex -?\d+(\.\d+)? used by convertValue. -/
def isNumericLitChars (cs0 : List Char) : Bool :=
  let cs := match cs0 with
    | '-' :: rest => rest
    | _ => cs0
  let ip := cs.takeWhile isAsciiDigit
  let rest := cs.dropWhile isAsciiDigit
  !ip.isEmpty &&
    (match rest with
     | [] => true
     | '.' :: fs => !fs.isEmpty && fs.all isAsciiDigit
     | _ => false)

/-- Matches the anchored regex \d+(\.\d+)? (no sign) used by the two-value
branch of parseFlexShorthand. -/
def isUnsignedNumericLitChars (cs : List Char) : Bool :=
  let ip := cs.takeWhile isAsciiDigit
  let rest := cs.dropWhile isAsciiDigit
  !ip.isEmpty &&
    (match rest with
     | [] => true
     | '.' :: fs => !fs.isEmpty && fs.all isAsciiDigit
     | _ => false)

/-- Exact value of a character list matching isNumericLitChars; this is what
parseFloat returns on such a full numeric literal. -/
def numLitToRat (cs0 : List Char) : ℚ :=
  let neg : Bool := match cs0 with
    | '-' :: _ => true
    | _ => false
  let cs := match cs0 with
    | '-' :: rest => rest
    | _ => cs0
  let ip := cs.takeWhile isAsciiDigit
  let rest := cs.dropWhile isAsciiDigit
  let v : ℚ := match rest with
    | '.' :: fs => (digitsToNat ip : ℚ) + fracVal fs
    | _ => (digitsToNat ip : ℚ)
  if neg then -v else v

/-- The zero-with-unit literals recognised by convertValue. -/
def zeroUnitLits : List (List Char) :=
  ["0px".data, "0%".data, "0em".data, "0rem".data, "0pt".data, "0vh".data, "0vw".data]

/-- UILayout.convertValue: numeric literals become numbers, a bare zero with
a recognised unit becomes the number 0, everything else stays a string. -/
def convertValue (cs : List Char) : Val :=
  if isNumericLitChars cs then .num (numLitToRat cs)
  else if cs ∈ zeroUnitLits then .num 0
  else .str (String.mk cs)

/-- UILayout.kebabToCamel: each dash followed by a lowercase ASCII letter is
replaced by the uppercased letter, a global regex replacement in the source. -/
def kebabToCamelChars : List Char → List Char
  | [] => []
  | '-' :: c :: rest =>
    if decide ('a' ≤ c) && decide (c ≤ 'z') then c.toUpper :: kebabToCamelChars rest
    else '-' :: kebabToCamelChars (c :: rest)
  | c :: rest => c :: kebabToCamelChars rest

def kebabToCamel (cs : List Char) : String := String.mk (kebabToCamelChars cs)

/-- Test for value.includes with the marker string used for importance.  A
character list contains the marker when some tail starts with it. -/
def containsImportantMarker (cs : List Char) : Bool :=
  cs.tails.any (fun t => "!important".data.isPrefixOf t)

/-- Removal of a trailing importance marker together with the surrounding
whitespace (regex /\s*!important\s*$/ followed by trim).  The call site
passes a value that was already trimmed, so the marker, when it matches at
the end, is exactly a suffix. -/
def stripImportantSuffix (cs : List Char) : List Char :=
  if "!important".data.reverse.isPrefixOf cs.reverse then
    trimChars (cs.take (cs.length - 10))
  else cs

/-- A parsed style fragment: the computed property map (insertion ordered,
like a JavaScript object) together with the list of property names that
carried the importance marker. -/
structure StyleObj where
  computedStyle : List (String × Val)
  importantProperties : List String
deriving DecidableEq, Repr

def emptyStyleObj : StyleObj := ⟨[], []⟩

/-- Property read on an insertion-ordered map (JavaScript object access). -/
def objGet : List (String × Val) → String → Option Val
  | [], _ => none
  | kv :: rest, k => if kv.1 = k then some kv.2 else objGet rest k

/-- Property write on an insertion-ordered map: an existing key keeps its
position, a new key is appended (JavaScript object assignment). -/
def objSet : List (String × Val) → String → Val → List (String × Val)
  | [], k, v => [(k, v)]
  | kv :: rest, k, v => if kv.1 = k then (k, v) :: rest else kv :: objSet rest k v

/-- UILayout.parseFlexShorthand on the whitespace-split parts of the value. -/
def parseFlexShorthandParts (parts : List (List Char)) (cs : List (String × Val)) :
    List (String × Val) :=
  match parts with
  | [p] =>
    if p = "auto".data then
      objSet (objSet (objSet cs "flexGrow" (.num 1)) "flexShrink" (.num 1)) "flexBasis" (.str "auto")
    else if p = "none".data then
      objSet (objSet (objSet cs "flexGrow" (.num 0)) "flexShrink" (.num 0)) "flexBasis" (.str "auto")
    else if p = "initial".data then
      objSet (objSet (objSet cs "flexGrow" (.num 0)) "flexShrink" (.num 1)) "flexBasis" (.str "auto")
    else
      objSet (objSet (objSet cs "flexGrow" (convertValue p)) "flexShrink" (.num 1)) "flexBasis" (.str "0")
  | [p1, p2] =>
    let cs1 := objSet cs "flexGrow" (convertValue p1)
    if isUnsignedNumericLitChars p2 then
      objSet (objSet cs1 "flexShrink" (convertValue p2)) "flexBasis" (.str "0")
    else
      objSet (objSet cs1 "flexShrink" (.num 1)) "flexBasis" (.str (String.mk p2))
  | p1 :: p2 :: p3 :: _ =>
    objSet (objSet (objSet cs "flexGrow" (convertValue p1)) "flexShrink" (convertValue p2))
      "flexBasis" (.str (String.mk p3))
  | [] => cs

/-- Processing of one semicolon-separated line of style text inside
UILayout.parseStyle. -/
def parseStyleLine (acc : StyleObj) (line0 : List Char) : StyleObj :=
  let line1 := trimChars line0
  if line1.isEmpty then acc
  else
    let line := if line1.getLast? = some ';' then line1.dropLast else line1
    let pre := line.takeWhile (fun c => c ≠ ':')
    let post := line.dropWhile (fun c => c ≠ ':')
    match post with
    | [] => acc
    | _ :: afterColon =>
      let property := trimChars pre
      let value0 := trimChars afterColon
      if property.isEmpty ∨ value0.isEmpty then acc
      else
        let isImportant := containsImportantMarker value0
        let value := if isImportant then stripImportantSuffix value0 else value0
        let importants :=
          if isImportant then acc.importantProperties ++ [kebabToCamel property]
          else acc.importantProperties
        let camelProperty := kebabToCamel property
        if camelProperty = "flex" then
          { computedStyle := parseFlexShorthandParts (wsSplit value) acc.computedStyle,
            importantProperties := importants }
        else
          { computedStyle := objSet acc.computedStyle camelProperty (convertValue value),
            importantProperties := importants }

/-- UILayout.parseStyle.  The source splits on line breaks, joins with
semicolons and splits on semicolons again; that is the same as replacing
every line break by a semicolon and splitting once. -/
def parseStyle (cssText : String) : StyleObj :=
  if cssText = "" then emptyStyleObj
  else
    let lines := splitOnChar ';' (cssText.data.map (fun c => if c = '\n' then ';' else c))
    lines.foldl parseStyleLine emptyStyleObj

/-- Insertion into the applied-importance set of mergeStyles (Set.add). -/
def addToSet (s : List String) (k : String) : List String :=
  if k ∈ s then s else s ++ [k]

/-- Processing of a single property entry inside UILayout.mergeStyles: the
entry is applied when the property was not yet applied importantly, or when
the current source marks it important. -/
def applyEntry (imps : List String) (acc : List (String × Val) × List String)
    (pv : String × Val) : List (String × Val) × List String :=
  if pv.1 ∉ acc.2 ∨ pv.1 ∈ imps then
    (objSet acc.1 pv.1 pv.2, if pv.1 ∈ imps then addToSet acc.2 pv.1 else acc.2)
  else acc

/-- Processing of one style object inside UILayout.mergeStyles. -/
def applySource (acc : List (String × Val) × List String) (so : StyleObj) :
    List (String × Val) × List String :=
  so.computedStyle.foldl (applyEntry so.importantProperties) acc

/-- UILayout.mergeStyles: left-to-right cascade over the style objects,
tracking which properties were applied with the importance marker. -/
def mergeStyles (styleObjects : List StyleObj) : List (String × Val) :=
  (styleObjects.foldl applySource ([], [])).1

/-! Style registry and the per-element computed-style cache.

From src/runtime/instance.js.  The element record mirrors the JavaScript
object attached to an instance: the field named after the source field
underscore-computedStyle holds the cache that getInstanceStyles reads and
writes, while underscore-computedStyles is the distinct field written by
the invalidation routine of the controller. -/

structure UIElem where
  classes : List String
  style : Option StyleObj
  _computedStyle : Option (List (String × Val))
  _computedStyles : Option (List (String × Val))
deriving DecidableEq, Repr

/-- Map write for the registered-classes map (Map.prototype.set). -/
def mapSetClass : List (String × StyleObj) → String → StyleObj → List (String × StyleObj)
  | [], k, v => [(k, v)]
  | kv :: rest, k, v => if kv.1 = k then (k, v) :: rest else kv :: mapSetClass rest k v

/-- Map read for the registered-classes map (has followed by get). -/
def mapGetClass : List (String × StyleObj) → String → Option StyleObj
  | [], _ => none
  | kv :: rest, k => if kv.1 = k then some kv.2 else mapGetClass rest k

/-- UILayout.registerClass: parse the style text and store it under the name. -/
def registerClass (reg : List (String × StyleObj)) (className styleString : String) :
    List (String × StyleObj) :=
  mapSetClass reg className (parseStyle styleString)

/-- UILayout.getInstanceStyles: return the cached computed style when the
cache field is defined; otherwise merge the styles of the registered
classes in class-list order followed by the inline style, and store the
result in the cache field.  An absent inline style contributes an object
without a computedStyle field, which mergeStyles skips, so it is modelled
by contributing nothing. -/
def getInstanceStyles (reg : List (String × StyleObj)) (e : UIElem) :
    List (String × Val) × UIElem :=
  match e._computedStyle with
  | some cs => (cs, e)
  | none =>
    let classStyles := e.classes.filterMap (fun c => mapGetClass reg c)
    let stylesToMerge := classStyles ++ (match e.style with
      | some s => [s]
      | none => [])
    let merged := mergeStyles stylesToMerge
    (merged, { e with _computedStyle := some merged })

/-- Controller._invalidateClassComputedStyle from src/runtime/instance.js:
for every instance whose class list contains the class name, the field
underscore-computedStyles is set to undefined.  Note that this is not the
field read by getInstanceStyles. -/
def invalidateClassComputedStyle (els : List UIElem) (className : String) : List UIElem :=
  els.map (fun e => if className ∈ e.classes then { e with _computedStyles := none } else e)

/-- Controller.setClassStyle: register the class, then run the invalidation
scan over the live elements. -/
def setClassStyle (reg : List (String × StyleObj)) (els : List UIElem)
    (className styleString : String) : List (String × StyleObj) × List UIElem :=
  (registerClass reg className styleString, invalidateClassComputedStyle els className)

/-! Flex distribution (the sizing part of layoutRow and layoutColumn).

A ChildStyle collects exactly the style fields those routines read for one
child, after style resolution: parseFloat of a missing or non-numeric
flexGrow is NaN and NaN-or-zero is 0, so flexGrow is an optional rational
that reads as 0; a missing flexShrink stays NaN (the source compares the
typeof of the parseFloat result with undefined, which never holds), so
flexShrink is an optional rational whose NaN case never passes a
greater-than test and poisons sums.  minSize and maxSize stand for
minWidth and maxWidth in layoutRow and for minHeight and maxHeight in
layoutColumn; size is the current main-axis extent of the instance. -/

inductive BasisV where
  | num (q : ℚ)
  | str (s : String)
deriving DecidableEq, Repr

structure ChildStyle where
  flexGrow : Option ℚ
  flexShrink : Option ℚ
  flexBasis : Option BasisV
  minSize : Option ℚ
  maxSize : Option ℚ
  size : ℚ
  marginStart : ℚ
  marginEnd : ℚ
deriving DecidableEq, Repr

/-- Numeric reading of flexGrow: parseFloat(styles.flexGrow) or zero. -/
def jsGrow (c : ChildStyle) : ℚ :=
  match c.flexGrow with
  | some g => g
  | none => 0

/-- Whether the actual flex shrink passes the greater-than-zero test; the
NaN of a missing flexShrink fails it. -/
def shrinkPos (c : ChildStyle) : Bool :=
  match c.flexShrink with
  | some s => decide (s > 0)
  | none => false

/-- Classification of a child as a flex item (flexGrow positive or actual
flexShrink positive); everything else is a fixed item. -/
def isFlexItem (c : ChildStyle) : Bool :=
  decide (jsGrow c > 0) || shrinkPos c

/-- JavaScript parseFloat on an arbitrary string: longest numeric prefix
after leading whitespace, without exponent forms, which do not occur in
style values handled here.  none models NaN. -/
def jsParseFloat (cs0 : List Char) : Option ℚ :=
  let cs1 := cs0.dropWhile Char.isWhitespace
  let neg : Bool := match cs1 with
    | '-' :: _ => true
    | _ => false
  let cs := match cs1 with
    | '-' :: rest => rest
    | '+' :: rest => rest
    | _ => cs1
  let ip := cs.takeWhile isAsciiDigit
  let rest := cs.dropWhile isAsciiDigit
  let fp := match rest with
    | '.' :: more => more.takeWhile isAsciiDigit
    | _ => []
  if ip.isEmpty ∧ fp.isEmpty then none
  else some ((if neg then -1 else 1) * ((digitsToNat ip : ℚ) + fracVal fp))

/-- Base main-axis size of a child: the flex basis when it is set, not the
keyword auto and readable as a number, otherwise the current size.  A
numeric basis is used directly; a percentage string falls through to the
current size (handled earlier by percentage sizing); any other string goes
through parseFloat, whose NaN or zero result falls back to the current
size because the source combines it with a falsy-or. -/
def baseSize (c : ChildStyle) : ℚ :=
  match c.flexBasis with
  | none => c.size
  | some (.num q) => q
  | some (.str s) =>
    if s = "auto" then c.size
    else if s.endsWith "%" then c.size
    else
      match jsParseFloat s.data with
      | some v => if v = 0 then c.size else v
      | none => c.size

/-- Transient per-pass record for one flex item, as built by layoutRow and
layoutColumn before distribution. -/
structure FlexItem where
  flexGrow : ℚ
  shrink : Option ℚ
  base : ℚ
  minSize : Option ℚ
  maxSize : Option ℚ
  target : ℚ
  constrained : Bool
deriving DecidableEq, Repr

/-- Construction of the flex-item record for a child; the target starts at
the base size and the item starts unconstrained. -/
def mkFlexItem (c : ChildStyle) : FlexItem :=
  { flexGrow := jsGrow c, shrink := c.flexShrink, base := baseSize c,
    minSize := c.minSize, maxSize := c.maxSize, target := baseSize c, constrained := false }

/-- Min and max clamping of a grow target; the boolean reports whether any
clamp fired, which marks the item as constrained. -/
def clampGrow (it : FlexItem) (newTarget : ℚ) : ℚ × Bool :=
  let c1 : ℚ × Bool :=
    match it.minSize with
    | some m => if newTarget < m then (m, true) else (newTarget, false)
    | none => (newTarget, false)
  match it.maxSize with
  | some m => if c1.1 > m then (m, true) else c1
  | none => c1

/-- Accumulator of one distribution pass: the live remaining-flex-grow
variable, the space consumed in this pass, and the still-flexing flag. -/
structure PassAcc where
  rfg : ℚ
  consumed : ℚ
  still : Bool
deriving DecidableEq, Repr

/-- One pass of the grow loop over the item list (the forEach body).  Items
already constrained are skipped; an item with positive grow factor takes
its proportional share of the remaining space, computed against the live
remaining-flex-grow, is clamped, and on clamping is marked constrained and
removed from the grow pool immediately. -/
def passItems (space : ℚ) : List FlexItem → PassAcc → List FlexItem × PassAcc
  | [], acc => ([], acc)
  | it :: rest, acc =>
    if it.constrained then
      let r := passItems space rest acc
      (it :: r.1, r.2)
    else if it.flexGrow > 0 then
      let extra := it.flexGrow / acc.rfg * space
      let ct := clampGrow it (it.target + extra)
      let actualExtra := ct.1 - it.target
      let it2 : FlexItem := { it with target := ct.1, constrained := ct.2 }
      let acc2 : PassAcc :=
        { rfg := if ct.2 then acc.rfg - it.flexGrow else acc.rfg,
          consumed := acc.consumed + actualExtra,
          still := acc.still || !ct.2 }
      let r := passItems space rest acc2
      (it2 :: r.1, r.2)
    else
      let r := passItems space rest acc
      (it :: r.1, r.2)

/-- Loop state of the iterative grow distribution. -/
structure GrowState where
  items : List FlexItem
  remainingFlexGrow : ℚ
  remainingSpace : ℚ
  stillFlexing : Bool
deriving DecidableEq, Repr

/-- One iteration of the while body: run a pass, subtract the consumed
space, and report the consumed amount for the safety cutoff. -/
def growPass (s : GrowState) : GrowState × ℚ :=
  let r := passItems s.remainingSpace s.items ⟨s.remainingFlexGrow, 0, false⟩
  ({ items := r.1, remainingFlexGrow := r.2.rfg,
     remainingSpace := s.remainingSpace - r.2.consumed, stillFlexing := r.2.still },
   r.2.consumed)

/-- The while condition of the grow loop. -/
def growGuard (s : GrowState) : Bool :=
  decide (s.remainingSpace > 1/10) && decide (s.remainingFlexGrow > 0) && s.stillFlexing

/-- The grow loop with explicit fuel.  The source runs an unbounded while
with the safety cutoff that breaks when a pass consumed less than one
hundredth of a unit; the termination theorem below shows that with
non-negative grow factors the loop always exits within length plus two
passes, so this fuel reproduces the source loop exactly on such inputs. -/
def runGrowLoop : Nat → GrowState → GrowState
  | 0, s => s
  | n + 1, s =>
    if growGuard s then
      let r := growPass s
      if r.2 < 1/100 then r.1 else runGrowLoop n r.1
    else s

/-- Initial loop state as built by layoutRow and layoutColumn: all items
unconstrained at their base size, the pool equal to the total grow factor,
the remaining space equal to the available space. -/
def initGrowState (items : List FlexItem) (avail : ℚ) : GrowState :=
  { items := items, remainingFlexGrow := (items.map (fun it => it.flexGrow)).sum,
    remainingSpace := avail, stillFlexing := true }

/-- Shrink-case update of one item: proportional reduction by the ratio of
its shrink factor times base size to the total shrink factors, floored at
zero, then raised to the min size when one is declared.  The max size is
not consulted.  An item whose shrink factor is not positive, including the
NaN of a missing flexShrink, keeps its base size. -/
def shrinkItem (avail t : ℚ) (it : FlexItem) : FlexItem :=
  match it.shrink with
  | some s =>
    if s > 0 then
      let frac := s * it.base / t
      let reduction := |avail| * frac
      let t0 := max 0 (it.base - reduction)
      let t1 : ℚ :=
        match it.minSize with
        | some m => if t0 < m then m else t0
        | none => t0
      { it with target := t1 }
    else { it with target := it.base }
  | none => { it with target := it.base }

/-- Total of shrink factor times base size over the flex items; none models
the NaN that arises as soon as one flex item has an undefined flexShrink. -/
def totalShrinkFactors (cs : List ChildStyle) : Option ℚ :=
  cs.foldl (fun acc c =>
    match acc, c.flexShrink with
    | some a, some s => some (a + s * baseSize c)
    | _, _ => none) (some 0)

/-- Branch selection of the distribution, shared by layoutRow and
layoutColumn: grow when space is available and some grow factor is
positive, shrink when space is negative and the total shrink factors are a
positive number, otherwise leave the targets at the base sizes. -/
def flexResolve (availableSpace totalFlexGrow : ℚ) (tShrink : Option ℚ)
    (items0 : List FlexItem) : List FlexItem :=
  if availableSpace > 0 ∧ totalFlexGrow > 0 then
    (runGrowLoop (items0.length + 2) (initGrowState items0 availableSpace)).items
  else
    match tShrink with
    | some t =>
      if availableSpace < 0 ∧ t > 0 then items0.map (shrinkItem availableSpace t)
      else items0
    | none => items0

/-- Outer extent of a fixed child (size plus margins). -/
def outerFixed (c : ChildStyle) : ℚ := c.size + c.marginStart + c.marginEnd

/-- Outer base extent of a flex child (base size plus margins). -/
def outerBase (c : ChildStyle) : ℚ := baseSize c + c.marginStart + c.marginEnd

/-- Final sizes: fixed children keep their size, flex children receive the
targets in order (only flex items get a size write in the source). -/
def reassembleSizes : List ChildStyle → List ℚ → List ℚ
  | [], _ => []
  | c :: cs, ts =>
    if isFlexItem c then
      match ts with
      | t :: ts2 => t :: reassembleSizes cs ts2
      | [] => c.size :: reassembleSizes cs []
    else c.size :: reassembleSizes cs ts

/-- Available space as computed by layoutRow: content width minus fixed
widths, initial flex widths and gaps, then clamped by the same quantity in
both branches of the adjustment. -/
def rowAvailableSpace (contentExtent gap : ℚ) (children : List ChildStyle) : ℚ :=
  let flexCs := children.filter (fun c => isFlexItem c)
  let fixedCs := children.filter (fun c => !isFlexItem c)
  let totalFixed := (fixedCs.map outerFixed).sum
  let totalGaps := if children.length > 1 then ((children.length : ℚ) - 1) * gap else 0
  let totalAvailable := contentExtent - totalGaps
  let initialFlex := (flexCs.map outerBase).sum
  let availableSpace0 := contentExtent - totalFixed - initialFlex - totalGaps
  if initialFlex + totalFixed > totalAvailable then
    totalAvailable - totalFixed - initialFlex
  else
    min availableSpace0 (totalAvailable - totalFixed - initialFlex)

/-- Available space as computed by layoutColumn, which forms the first
estimate before subtracting the initial flex extent. -/
def columnAvailableSpace (contentExtent gap : ℚ) (children : List ChildStyle) : ℚ :=
  let flexCs := children.filter (fun c => isFlexItem c)
  let fixedCs := children.filter (fun c => !isFlexItem c)
  let totalFixed := (fixedCs.map outerFixed).sum
  let totalGaps := if children.length > 1 then ((children.length : ℚ) - 1) * gap else 0
  let totalAvailable := contentExtent - totalGaps
  let initialFlex := (flexCs.map outerBase).sum
  let availableSpace0 := contentExtent - totalFixed - totalGaps
  if initialFlex + totalFixed > totalAvailable then
    totalAvailable - totalFixed - initialFlex
  else
    min availableSpace0 (totalAvailable - totalFixed - initialFlex)

/-- Main-axis sizes produced by the sizing part of layoutRow. -/
def layoutRowSizes (contentExtent gap : ℚ) (children : List ChildStyle) : List ℚ :=
  let flexCs := children.filter (fun c => isFlexItem c)
  let totalFlexGrow := (flexCs.map jsGrow).sum
  let tShrink := totalShrinkFactors flexCs
  let availableSpace := rowAvailableSpace contentExtent gap children
  let items0 := flexCs.map mkFlexItem
  let finalItems := flexResolve availableSpace totalFlexGrow tShrink items0
  reassembleSizes children (finalItems.map (fun it => it.target))

/-- Main-axis sizes produced by the sizing part of layoutColumn. -/
def layoutColumnSizes (contentExtent gap : ℚ) (children : List ChildStyle) : List ℚ :=
  let flexCs := children.filter (fun c => isFlexItem c)
  let totalFlexGrow := (flexCs.map jsGrow).sum
  let tShrink := totalShrinkFactors flexCs
  let availableSpace := columnAvailableSpace contentExtent gap children
  let items0 := flexCs.map mkFlexItem
  let finalItems := flexResolve availableSpace totalFlexGrow tShrink items0
  reassembleSizes children (finalItems.map (fun it => it.target))

/-! Main-axis positioning with justify-content (from layoutColumn after the
flex sizes are applied; layoutRow is the same with the axes swapped). -/

/-- The per-child data that the positioning part reads: the final main-axis
size and the leading and trailing margins on the main axis. -/
structure PosChild where
  size : ℚ
  marginStart : ℚ
  marginEnd : ℚ
deriving DecidableEq, Repr

/-- Outer extent of a positioned child. -/
def outerPos (c : PosChild) : ℚ := c.size + c.marginStart + c.marginEnd

/-- The placement fold: each child is placed at the running position plus
its leading margin; the running position then advances past the child and,
before every following child, past the gap, the space-between share and,
for space-around, the per-child share. -/
def placeMain (gap sb sa : ℚ) (isSpaceAround : Bool) : ℚ → List PosChild → List ℚ
  | _, [] => []
  | cur, c :: rest =>
    let y := cur + c.marginStart
    let afterC := y + c.size + c.marginEnd
    let next :=
      match rest with
      | [] => afterC
      | _ :: _ => afterC + gap + sb + (if isSpaceAround then sa else 0)
    y :: placeMain gap sb sa isSpaceAround next rest

/-- The justify-content slack: content extent minus the consumed extent of
the children (outer sizes plus inner gaps), floored at zero. -/
def justifySlack (contentExtent gap : ℚ) (children : List PosChild) : ℚ :=
  max 0 (contentExtent -
    ((children.map outerPos).sum +
      (if children.length > 1 then ((children.length : ℚ) - 1) * gap else 0)))

/-- Main-axis offsets of the children relative to the container origin, as
computed by the justify-content part of layoutColumn.  The slack is
divided by space-between among the n minus one inner gaps only when more
than one child is present, by space-around among the n children only when
any is present. -/
def layoutColumnMainOffsets (contentExtent padStart borderStart gap : ℚ)
    (justifyContent : String) (children : List PosChild) : List ℚ :=
  let jrs := justifySlack contentExtent gap children
  let startOffset :=
    if justifyContent = "center" then jrs / 2
    else if justifyContent = "end" then jrs
    else 0
  let spaceBetween :=
    if justifyContent = "space-between" then
      (if children.length > 1 then jrs / ((children.length : ℚ) - 1) else 0)
    else 0
  let spaceAround :=
    if justifyContent = "space-around" then
      (if children.length > 0 then jrs / (children.length : ℚ) else 0)
    else 0
  let start0 := padStart + borderStart + startOffset +
    (if justifyContent = "space-around" ∧ children.length > 0 then spaceAround / 2 else 0)
  placeMain gap spaceBetween spaceAround (justifyContent = "space-around") start0 children

/-! Anchor positioning (positionAnchor and getAnchorPoint). -/

/-- Final geometry of an element as the layout engine sees it: the bounding
box left edge, top edge, width and height. -/
structure Geom where
  x : ℚ
  y : ℚ
  w : ℚ
  h : ℚ
deriving DecidableEq, Repr

/-- Offsets of a named anchor point from the top-left corner of a box
(getAnchorPoint with returnOffset); any unknown name falls back to the
center. -/
def anchorOffsets (g : Geom) (anchor : String) : ℚ × ℚ :=
  if anchor = "top-left" then (0, 0)
  else if anchor = "top" ∨ anchor = "top-center" then (g.w / 2, 0)
  else if anchor = "top-right" then (g.w, 0)
  else if anchor = "left" ∨ anchor = "center-left" then (0, g.h / 2)
  else if anchor = "center" then (g.w / 2, g.h / 2)
  else if anchor = "right" ∨ anchor = "center-right" then (g.w, g.h / 2)
  else if anchor = "bottom-left" then (0, g.h)
  else if anchor = "bottom" ∨ anchor = "bottom-center" then (g.w / 2, g.h)
  else if anchor = "bottom-right" then (g.w, g.h)
  else (g.w / 2, g.h / 2)

/-- Absolute coordinates of a named anchor point (getAnchorPoint without
returnOffset). -/
def anchorPointAbs (g : Geom) (anchor : String) : ℚ × ℚ :=
  let o := anchorOffsets g anchor
  (g.x + o.1, g.y + o.2)

/-- An anchor-target style value: a tag string or a direct instance
reference. -/
inductive ATarget where
  | str (s : String)
  | inst (g : Geom)
deriving DecidableEq, Repr

/-- Anchor positioning properties as read from the layout properties. -/
structure AnchorProps where
  anchorTarget : Option ATarget
  anchorPoint : String
  selfAnchor : String
  anchorOffsetX : ℚ
  anchorOffsetY : ℚ
deriving DecidableEq, Repr

/-- Target resolution of positionAnchor.  A falsy target (absent, or the
empty string) falls back to the parent; the literal string parent also
resolves to the parent; any other string is looked up by tag across the
live instances (modelled by the lookup function); a direct instance
reference is used as given. -/
def resolveAnchorTarget (parent : Option Geom) (tagLookup : String → Option Geom) :
    Option ATarget → Option Geom
  | none => parent
  | some (.str s) =>
    if s = "" then parent
    else if s = "parent" then parent
    else tagLookup s
  | some (.inst g) => some g

/-- UILayout.positionAnchor: when no target resolves the element keeps its
position; otherwise the element is translated so that its own anchor point
lands on the target anchor point, plus the explicit pixel offsets. -/
def positionAnchor (tagLookup : String → Option Geom) (parent : Option Geom)
    (props : AnchorProps) (inst : Geom) : Geom :=
  match resolveAnchorTarget parent tagLookup props.anchorTarget with
  | none => inst
  | some target =>
    let tp := anchorPointAbs target props.anchorPoint
    let sp := anchorOffsets inst props.selfAnchor
    let offsetX := tp.1 - (inst.x + sp.1) + props.anchorOffsetX
    let offsetY := tp.2 - (inst.y + sp.2) + props.anchorOffsetY
    { inst with x := inst.x + offsetX, y := inst.y + offsetY }

/-! Layout properties and fit-content sizing (getLayoutProperties,
applyFitContentSizing and step 6 of processInstance). -/

/-- JavaScript truthiness of a style value. -/
def jsTruthy : Val → Bool
  | .num q => decide (q ≠ 0)
  | .str s => decide (s ≠ "")
  | .bool b => b

/-- The falsy-or used for style defaults: an absent or falsy value yields
the default. -/
def jsOr (v : Option Val) (dflt : Val) : Val :=
  match v with
  | some x => if jsTruthy x then x else dflt
  | none => dflt

/-- The layout properties projected from an effective style by
getLayoutProperties, with the source defaults. -/
structure LayoutProps where
  display : Val
  position : Val
  gap : Val
  padding : Val
  alignItems : Val
  justifyContent : Val
  flexWrap : Val
  columns : Val
  fitContent : Bool
  top : Option Val
  right : Option Val
  bottom : Option Val
  left : Option Val
  anchorTarget : Option Val
  anchorPoint : Val
  selfAnchor : Val
  anchorOffsetX : Val
  anchorOffsetY : Val
deriving DecidableEq, Repr

/-- UILayout.getLayoutProperties.  The fit-content flag holds exactly when
the style value is the string true under strict equality, which never
identifies values of different runtime type. -/
def getLayoutProperties (styles : List (String × Val)) : LayoutProps :=
  { display := jsOr (objGet styles "display") (.str "column"),
    position := jsOr (objGet styles "position") (.str "relative"),
    gap := jsOr (objGet styles "gap") (.num 0),
    padding := jsOr (objGet styles "padding") (.num 0),
    alignItems := jsOr (objGet styles "alignItems") (jsOr (objGet styles "alignment") (.str "start")),
    justifyContent := jsOr (objGet styles "justifyContent") (.str "start"),
    flexWrap := jsOr (objGet styles "flexWrap") (.str "nowrap"),
    columns := jsOr (objGet styles "columns") (.num 2),
    fitContent := objGet styles "fitContent" = some (.str "true"),
    top := objGet styles "top",
    right := objGet styles "right",
    bottom := objGet styles "bottom",
    left := objGet styles "left",
    anchorTarget := objGet styles "anchorTarget",
    anchorPoint := jsOr (objGet styles "anchorPoint") (.str "center"),
    selfAnchor := jsOr (objGet styles "selfAnchor") (.str "center"),
    anchorOffsetX := jsOr (objGet styles "anchorOffsetX") (.num 0),
    anchorOffsetY := jsOr (objGet styles "anchorOffsetY") (.num 0) }

/-- Per-side box extents. -/
structure BoxSides where
  top : ℚ
  right : ℚ
  bottom : ℚ
  left : ℚ
deriving DecidableEq, Repr

/-- Box model of a container as used by applyFitContentSizing. -/
structure BoxModelR where
  padding : BoxSides
  border : BoxSides
deriving DecidableEq, Repr

/-- The child data read by applyFitContentSizing: size and margins. -/
structure FitChild where
  width : ℚ
  height : ℚ
  margin : BoxSides
deriving DecidableEq, Repr

def fitOuterWidth (c : FitChild) : ℚ := c.width + c.margin.left + c.margin.right

def fitOuterHeight (c : FitChild) : ℚ := c.height + c.margin.top + c.margin.bottom

/-- Sum of a list of extents with one gap between consecutive entries, the
forEach accumulation used by applyFitContentSizing. -/
def sumWithGaps (gap : ℚ) (xs : List ℚ) : ℚ :=
  match xs with
  | [] => 0
  | _ => xs.sum + ((xs.length : ℚ) - 1) * gap

/-- Numeric reading of a style value where the source does arithmetic on
it; non-numeric values would engage implicit coercion and do not occur in
the modelled inputs. -/
def valNum : Val → ℚ
  | .num q => q
  | .str _ => 0
  | .bool b => if b then 1 else 0

/-- UILayout.applyFitContentSizing: rewrite the container extents from the
extents of its children according to the display mode; an unknown display
mode leaves the geometry unchanged. -/
def applyFitContentSizing (lp : LayoutProps) (box : BoxModelR)
    (children : List FitChild) (g : Geom) : Geom :=
  let gap := valNum lp.gap
  if lp.display = .str "column" ∨ lp.display = .str "column-reverse" then
    let totalHeightVertical := box.padding.top + box.padding.bottom +
      sumWithGaps gap (children.map fitOuterHeight)
    let maxW := (children.map fitOuterWidth).foldl max 0
    { g with
      h := totalHeightVertical + box.border.top + box.border.bottom,
      w := maxW + box.padding.left + box.padding.right + box.border.left + box.border.right }
  else if lp.display = .str "row" ∨ lp.display = .str "row-reverse" then
    let totalWidthHorizontal := box.padding.left + box.padding.right +
      sumWithGaps gap (children.map fitOuterWidth)
    let maxH := (children.map fitOuterHeight).foldl max 0
    { g with
      w := totalWidthHorizontal + box.border.left + box.border.right,
      h := maxH + box.padding.top + box.padding.bottom + box.border.top + box.border.bottom }
  else if lp.display = .str "grid" then
    let columns := valNum (jsOr (some lp.columns) (.num 2))
    let rows : ℚ := (⌈(children.length : ℚ) / columns⌉ : ℤ)
    let maxCellWidth := (children.map fitOuterWidth).foldl max 0
    let maxCellHeight := (children.map fitOuterHeight).foldl max 0
    let totalWidthGrid := columns * maxCellWidth + (columns - 1) * gap +
      box.padding.left + box.padding.right + box.border.left + box.border.right
    let totalHeightGrid := rows * maxCellHeight + (rows - 1) * gap +
      box.padding.top + box.padding.bottom + box.border.top + box.border.bottom
    { g with w := totalWidthGrid, h := totalHeightGrid }
  else g

/-- Step 6 of processInstance: fit-content sizing runs only when the
fit-content layout flag is set; otherwise the container geometry is left
as normal flow produced it. -/
def processFitContentStep (lp : LayoutProps) (box : BoxModelR)
    (children : List FitChild) (g : Geom) : Geom :=
  if lp.fitContent then applyFitContentSizing lp box children g else g

/-! Cascade characterisation.  The reference functions below express, for a
fixed property, which source determines the merged value: the last source
that sets the property with the importance marker, and otherwise the last
source that sets it at all. -/

/-- Value of the last entry for a property inside one computed-style entry
list; entries are written left to right, so the last one wins. -/
def sourceVal (p : String) : List (String × Val) → Option Val
  | [] => none
  | pv :: rest =>
    match sourceVal p rest with
    | some v => some v
    | none => if pv.1 = p then some pv.2 else none

/-- Value of a property from the last style object that sets it. -/
def lastVal (p : String) : List StyleObj → Option Val
  | [] => none
  | so :: rest =>
    match lastVal p rest with
    | some v => some v
    | none => sourceVal p so.computedStyle

/-- Value of a property from the last style object that both sets it and
lists it as important. -/
def lastImportantVal (p : String) : List StyleObj → Option Val
  | [] => none
  | so :: rest =>
    match lastImportantVal p rest with
    | some v => some v
    | none =>
      if p ∈ so.importantProperties then sourceVal p so.computedStyle else none

/-- The reference cascade: the last important setter wins, and without any
important setter the last setter wins. -/
def cascadeSpec (p : String) (ss : List StyleObj) : Option Val :=
  match lastImportantVal p ss with
  | some v => some v
  | none => lastVal p ss

theorem objGet_objSet_self (m : List (String × Val)) (k : String) (v : Val) :
    objGet (objSet m k v) k = some v := by
  induction m with
  | nil => simp [objSet, objGet]
  | cons kv rest ih =>
    by_cases h : kv.1 = k
    · simp [objSet, h, objGet]
    · simp [objSet, h, objGet, ih]

theorem objGet_objSet_ne (m : List (String × Val)) (k p : String) (v : Val) (h : p ≠ k) :
    objGet (objSet m k v) p = objGet m p := by
  induction m with
  | nil => simp [objSet, objGet, Ne.symm h]
  | cons kv rest ih =>
    by_cases hkv : kv.1 = k
    · subst hkv
      simp [objSet, objGet, Ne.symm h]
    · by_cases hp : kv.1 = p
      · simp [objSet, hkv, objGet, hp, h]
      · simp [objSet, hkv, objGet, hp, ih]

theorem mem_addToSet (s : List String) (k p : String) :
    p ∈ addToSet s k ↔ p ∈ s ∨ p = k := by
  unfold addToSet
  by_cases h : k ∈ s
  · simp only [if_pos h]
    constructor
    · exact fun h1 => Or.inl h1
    · rintro (h1 | rfl)
      · exact h1
      · exact h
  · simp [if_neg h]

theorem applyEntry_fold_spec (imps : List String) (p : String) :
    ∀ (es : List (String × Val)) (fs : List (String × Val)) (aip : List String),
      (objGet (es.foldl (applyEntry imps) (fs, aip)).1 p =
        if (sourceVal p es).isSome ∧ p ∈ imps then sourceVal p es
        else if p ∈ aip then objGet fs p
        else
          match sourceVal p es with
          | some v => some v
          | none => objGet fs p) ∧
      (p ∈ (es.foldl (applyEntry imps) (fs, aip)).2 ↔
        p ∈ aip ∨ ((sourceVal p es).isSome ∧ p ∈ imps)) := by
  intro es
  induction es with
  | nil =>
    intro fs aip
    constructor
    · by_cases haip : p ∈ aip <;> simp [sourceVal, haip]
    · simp [sourceVal]
  | cons pv rest ih =>
    intro fs aip
    rw [List.foldl_cons]
    by_cases hq : pv.1 = p
    · -- the head entry writes the property under consideration
      subst hq
      by_cases himp : pv.1 ∈ imps
      · -- the head write carries the importance marker
        have hcond : pv.1 ∉ aip ∨ pv.1 ∈ imps := Or.inr himp
        rw [applyEntry, if_pos hcond, if_pos himp]
        obtain ⟨ih1, ih2⟩ := ih (objSet fs pv.1 pv.2) (addToSet aip pv.1)
        refine ⟨?_, ?_⟩
        · rw [ih1]
          cases hrest : sourceVal pv.1 rest with
          | some w =>
            simp [sourceVal, hrest, himp]
          | none =>
            have hmem : pv.1 ∈ addToSet aip pv.1 := (mem_addToSet _ _ _).mpr (Or.inr rfl)
            simp [sourceVal, hrest, himp, hmem, objGet_objSet_self]
        · rw [ih2]
          cases hrest : sourceVal pv.1 rest with
          | some w => simp [sourceVal, hrest, himp, mem_addToSet]
          | none => simp [sourceVal, hrest, himp, mem_addToSet]
      · -- head write without the marker
        by_cases haip : pv.1 ∈ aip
        · -- already applied importantly: the head write is skipped
          have hcond : ¬(pv.1 ∉ aip ∨ pv.1 ∈ imps) := by
            simp [haip, himp]
          rw [applyEntry, if_neg hcond]
          obtain ⟨ih1, ih2⟩ := ih fs aip
          refine ⟨?_, ?_⟩
          · rw [ih1]
            cases hrest : sourceVal pv.1 rest with
            | some w => simp [sourceVal, hrest, himp, haip]
            | none => simp [sourceVal, hrest, himp, haip]
          · rw [ih2]
            cases hrest : sourceVal pv.1 rest with
            | some w => simp [sourceVal, hrest, himp, haip]
            | none => simp [sourceVal, hrest, himp, haip]
        · -- not yet applied importantly: the head write lands
          have hcond : pv.1 ∉ aip ∨ pv.1 ∈ imps := Or.inl haip
          rw [applyEntry, if_pos hcond, if_neg himp]
          obtain ⟨ih1, ih2⟩ := ih (objSet fs pv.1 pv.2) aip
          refine ⟨?_, ?_⟩
          · rw [ih1]
            cases hrest : sourceVal pv.1 rest with
            | some w => simp [sourceVal, hrest, himp, haip]
            | none => simp [sourceVal, hrest, himp, haip, objGet_objSet_self]
          · rw [ih2]
            cases hrest : sourceVal pv.1 rest with
            | some w => simp [sourceVal, hrest, himp, haip]
            | none => simp [sourceVal, hrest, himp, haip]
    · -- the head entry concerns a different property
      have hsv : sourceVal p (pv :: rest) = sourceVal p rest := by
        cases hrest : sourceVal p rest with
        | some w => simp [sourceVal, hrest]
        | none => simp [sourceVal, hrest, hq]
      by_cases hcond : pv.1 ∉ aip ∨ pv.1 ∈ imps
      · rw [applyEntry, if_pos hcond]
        by_cases himp : pv.1 ∈ imps
        · rw [if_pos himp]
          obtain ⟨ih1, ih2⟩ := ih (objSet fs pv.1 pv.2) (addToSet aip pv.1)
          have hget : objGet (objSet fs pv.1 pv.2) p = objGet fs p :=
            objGet_objSet_ne fs pv.1 p pv.2 (Ne.symm hq)
          have hmem : p ∈ addToSet aip pv.1 ↔ p ∈ aip := by
            rw [mem_addToSet]
            simp [Ne.symm hq]
          refine ⟨?_, ?_⟩
          · rw [ih1, hsv]
            simp only [hget, hmem]
          · rw [ih2, hsv]
            simp only [hmem]
        · rw [if_neg himp]
          obtain ⟨ih1, ih2⟩ := ih (objSet fs pv.1 pv.2) aip
          have hget : objGet (objSet fs pv.1 pv.2) p = objGet fs p :=
            objGet_objSet_ne fs pv.1 p pv.2 (Ne.symm hq)
          refine ⟨?_, ?_⟩
          · rw [ih1, hsv]
            simp only [hget]
          · rw [ih2, hsv]
      · rw [applyEntry, if_neg hcond]
        obtain ⟨ih1, ih2⟩ := ih fs aip
        refine ⟨?_, ?_⟩
        · rw [ih1, hsv]
        · rw [ih2, hsv]

theorem mergeStyles_fold_spec (p : String) :
    ∀ (ss : List StyleObj) (fs : List (String × Val)) (aip : List String),
      (objGet (ss.foldl applySource (fs, aip)).1 p =
        if (lastImportantVal p ss).isSome then lastImportantVal p ss
        else if p ∈ aip then objGet fs p
        else
          match lastVal p ss with
          | some v => some v
          | none => objGet fs p) ∧
      (p ∈ (ss.foldl applySource (fs, aip)).2 ↔
        p ∈ aip ∨ (lastImportantVal p ss).isSome) := by
  intro ss
  induction ss with
  | nil =>
    intro fs aip
    constructor
    · by_cases haip : p ∈ aip <;> simp [lastImportantVal, lastVal, haip]
    · simp [lastImportantVal]
  | cons so rest ih =>
    intro fs aip
    rw [List.foldl_cons]
    have hsrc := applyEntry_fold_spec so.importantProperties p so.computedStyle fs aip
    have hfold : applySource (fs, aip) so =
        so.computedStyle.foldl (applyEntry so.importantProperties) (fs, aip) := rfl
    obtain ⟨h1, h2⟩ := hsrc
    obtain ⟨ih1, ih2⟩ := ih (applySource (fs, aip) so).1 (applySource (fs, aip) so).2
    have hpair : ((applySource (fs, aip) so).1, (applySource (fs, aip) so).2) =
        applySource (fs, aip) so := rfl
    rw [hpair] at ih1 ih2
    cases hLI : lastImportantVal p rest with
    | some w =>
      refine ⟨?_, ?_⟩
      · rw [ih1]
        simp [lastImportantVal, hLI]
      · rw [ih2]
        simp [lastImportantVal, hLI]
    | none =>
      by_cases himpSo : (sourceVal p so.computedStyle).isSome ∧ p ∈ so.importantProperties
      · have hLIcons : lastImportantVal p (so :: rest) = sourceVal p so.computedStyle := by
          simp [lastImportantVal, hLI, himpSo.2]
        have hmem1 : p ∈ (applySource (fs, aip) so).2 := by
          rw [hfold, h2]
          exact Or.inr himpSo
        refine ⟨?_, ?_⟩
        · rw [ih1]
          rw [hLIcons]
          obtain ⟨v0, hv0⟩ := Option.isSome_iff_exists.mp himpSo.1
          have hg : objGet (applySource (fs, aip) so).1 p = sourceVal p so.computedStyle := by
            rw [hfold, h1, if_pos himpSo]
          simp [hLI, hmem1, hg, hv0]
        · rw [ih2]
          rw [hLIcons]
          obtain ⟨v0, hv0⟩ := Option.isSome_iff_exists.mp himpSo.1
          simp [hLI, hmem1, hv0]
      · have hLIcons : lastImportantVal p (so :: rest) = none := by
          by_cases hin : p ∈ so.importantProperties
          · have : sourceVal p so.computedStyle = none := by
              cases hsv : sourceVal p so.computedStyle with
              | some w => exact absurd ⟨by simp [hsv], hin⟩ himpSo
              | none => rfl
            simp [lastImportantVal, hLI, hin, this]
          · simp [lastImportantVal, hLI, hin]
        have hmem2 : p ∈ (applySource (fs, aip) so).2 ↔ p ∈ aip := by
          rw [hfold, h2]
          simp [himpSo]
        refine ⟨?_, ?_⟩
        · rw [ih1, hLIcons]
          simp only [hLI, Option.isSome_none, Bool.false_eq_true, if_false]
          by_cases haip : p ∈ aip
          · have hg : objGet (applySource (fs, aip) so).1 p = objGet fs p := by
              rw [hfold, h1, if_neg himpSo, if_pos haip]
            simp [hmem2, haip, hg]
          · have hg : objGet (applySource (fs, aip) so).1 p =
                match sourceVal p so.computedStyle with
                | some v => some v
                | none => objGet fs p := by
              rw [hfold, h1, if_neg himpSo, if_neg haip]
            rw [if_neg (by rw [hmem2]; exact haip), if_neg haip]
            cases hLV : lastVal p rest with
            | some w => simp [lastVal, hLV]
            | none =>
              rw [hg]
              cases hsv : sourceVal p so.computedStyle with
              | some w => simp [lastVal, hLV, hsv]
              | none => simp [lastVal, hLV, hsv]
        · rw [ih2, hLIcons]
          rw [hmem2]
          simp [hLI]

/-- Lookup characterisation of the cascade implemented by mergeStyles. -/
theorem mergeStyles_objGet (ss : List StyleObj) (p : String) :
    objGet (mergeStyles ss) p = cascadeSpec p ss := by
  have h := (mergeStyles_fold_spec p ss [] []).1
  rw [mergeStyles, h]
  cases hLI : lastImportantVal p ss with
  | some w => simp [cascadeSpec, hLI]
  | none =>
    cases hLV : lastVal p ss with
    | some w => simp [cascadeSpec, hLI, hLV, objGet]
    | none => simp [cascadeSpec, hLI, hLV, objGet]

/-! Termination of the grow loop.  Each pass either newly constrains an
item, or consumes exactly the remaining space (with non-negative grow
factors, the shares of the unconstrained items sum to the remaining space
when no clamp fires), after which the guard fails.  Hence the loop always
exits within item count plus two iterations. -/

/-- Number of items not yet marked constrained. -/
def unconCount (items : List FlexItem) : Nat :=
  (items.filter (fun it => !it.constrained)).length

/-- Sum of the grow factors of the unconstrained items. -/
def sumUnconGrow (items : List FlexItem) : ℚ :=
  (items.map (fun it => if it.constrained then 0 else it.flexGrow)).sum

/-- Sum of the positive grow factors of the unconstrained items; only these
items take a share during a pass. -/
def sumUnconPosGrow (items : List FlexItem) : ℚ :=
  (items.map (fun it =>
    if it.constrained = false ∧ it.flexGrow > 0 then it.flexGrow else 0)).sum

theorem unconCount_cons (it : FlexItem) (rest : List FlexItem) :
    unconCount (it :: rest) = (if it.constrained then 0 else 1) + unconCount rest := by
  by_cases h : it.constrained <;>
    simp [unconCount, List.filter_cons, h, Nat.add_comm]

theorem sumUnconGrow_cons (it : FlexItem) (rest : List FlexItem) :
    sumUnconGrow (it :: rest) =
      (if it.constrained then 0 else it.flexGrow) + sumUnconGrow rest := by
  simp [sumUnconGrow]

theorem sumUnconPosGrow_cons (it : FlexItem) (rest : List FlexItem) :
    sumUnconPosGrow (it :: rest) =
      (if it.constrained = false ∧ it.flexGrow > 0 then it.flexGrow else 0) +
        sumUnconPosGrow rest := by
  simp [sumUnconPosGrow]

theorem unconCount_zero_sum (items : List FlexItem) (h : unconCount items = 0) :
    sumUnconGrow items = 0 := by
  induction items with
  | nil => simp [sumUnconGrow]
  | cons it rest ih =>
    rw [unconCount_cons] at h
    rw [sumUnconGrow_cons]
    by_cases hc : it.constrained
    · simp only [hc, if_true, Nat.zero_add] at h ⊢
      rw [ih h, add_zero]
    · simp [hc] at h

theorem sumUnconPosGrow_eq (items : List FlexItem)
    (h : ∀ it ∈ items, 0 ≤ it.flexGrow) :
    sumUnconPosGrow items = sumUnconGrow items := by
  induction items with
  | nil => simp [sumUnconPosGrow, sumUnconGrow]
  | cons it rest ih =>
    rw [sumUnconPosGrow_cons, sumUnconGrow_cons,
      ih (fun x hx => h x (List.mem_cons_of_mem _ hx))]
    by_cases hc : it.constrained
    · simp [hc]
    · by_cases hg : it.flexGrow > 0
      · simp [hc, hg]
      · have h0 : it.flexGrow = 0 :=
          le_antisymm (not_lt.mp hg) (h it (List.mem_cons_self _ _))
        simp [hc, hg, h0]

theorem clampGrow_free (it : FlexItem) (nt : ℚ) (h : (clampGrow it nt).2 = false) :
    (clampGrow it nt).1 = nt := by
  unfold clampGrow at h ⊢
  cases hmin : it.minSize with
  | none =>
    cases hmax : it.maxSize with
    | none => rfl
    | some m =>
      simp only [hmin, hmax] at h ⊢
      by_cases hgt : nt > m
      · simp [hgt] at h
      · simp [hgt]
  | some mn =>
    cases hmax : it.maxSize with
    | none =>
      simp only [hmin, hmax] at h ⊢
      by_cases hlt : nt < mn
      · simp [hlt] at h
      · simp [hlt]
    | some m =>
      simp only [hmin, hmax] at h ⊢
      by_cases hlt : nt < mn
      · simp only [if_pos hlt] at h ⊢
        by_cases hgt : mn > m
        · simp [hgt] at h
        · simp [hgt] at h
      · simp only [if_neg hlt] at h ⊢
        by_cases hgt : nt > m
        · simp [hgt] at h
        · simp [hgt]

theorem passItems_spec (space : ℚ) :
    ∀ (items : List FlexItem) (acc : PassAcc),
      ((passItems space items acc).1.map (fun it => it.flexGrow) =
          items.map (fun it => it.flexGrow)) ∧
      unconCount (passItems space items acc).1 ≤ unconCount items ∧
      ((passItems space items acc).2.rfg - sumUnconGrow (passItems space items acc).1 =
          acc.rfg - sumUnconGrow items) ∧
      (unconCount (passItems space items acc).1 = unconCount items →
        (passItems space items acc).2.rfg = acc.rfg ∧
        (passItems space items acc).2.consumed =
          acc.consumed + sumUnconPosGrow items / acc.rfg * space) := by
  intro items
  induction items with
  | nil =>
    intro acc
    simp [passItems, sumUnconPosGrow]
  | cons it rest ih =>
    intro acc
    by_cases hc : it.constrained
    · have hp1 : (passItems space (it :: rest) acc).1 = it :: (passItems space rest acc).1 := by
        simp [passItems, hc]
      have hp2 : (passItems space (it :: rest) acc).2 = (passItems space rest acc).2 := by
        simp [passItems, hc]
      obtain ⟨ih1, ih2, ih3, ih4⟩ := ih acc
      rw [hp1, hp2]
      refine ⟨by simpa using ih1, ?_, ?_, ?_⟩
      · simpa [unconCount_cons, hc] using ih2
      · simpa [sumUnconGrow_cons, hc] using ih3
      · intro hflip
        rw [unconCount_cons, unconCount_cons, if_pos hc] at hflip
        obtain ⟨hA, hB⟩ := ih4 (by omega)
        refine ⟨hA, ?_⟩
        rw [hB, sumUnconPosGrow_cons]
        simp [hc]
    · by_cases hg : it.flexGrow > 0
      · -- the pass processes this item
        rcases hclamp : clampGrow it (it.target + it.flexGrow / acc.rfg * space) with ⟨ctv, wasC⟩
        have hp1 : (passItems space (it :: rest) acc).1 =
            { it with target := ctv, constrained := wasC } ::
              (passItems space rest
                ⟨if wasC then acc.rfg - it.flexGrow else acc.rfg,
                 acc.consumed + (ctv - it.target), acc.still || !wasC⟩).1 := by
          simp [passItems, hc, hg, hclamp]
        have hp2 : (passItems space (it :: rest) acc).2 =
            (passItems space rest
              ⟨if wasC then acc.rfg - it.flexGrow else acc.rfg,
               acc.consumed + (ctv - it.target), acc.still || !wasC⟩).2 := by
          simp [passItems, hc, hg, hclamp]
        cases wasC with
        | true =>
          have hacc2 : (⟨if true then acc.rfg - it.flexGrow else acc.rfg,
              acc.consumed + (ctv - it.target), acc.still || !true⟩ : PassAcc) =
              ⟨acc.rfg - it.flexGrow, acc.consumed + (ctv - it.target), acc.still⟩ := by
            simp
          rw [hacc2] at hp1 hp2
          obtain ⟨ih1, ih2, ih3, ih4⟩ :=
            ih ⟨acc.rfg - it.flexGrow, acc.consumed + (ctv - it.target), acc.still⟩
          rw [hp1, hp2]
          refine ⟨by simpa using ih1, ?_, ?_, ?_⟩
          · rw [unconCount_cons, unconCount_cons, if_neg hc]
            have hcon : ({ it with target := ctv, constrained := true } : FlexItem).constrained
                = true := rfl
            rw [hcon, if_pos rfl]
            omega
          · rw [sumUnconGrow_cons, sumUnconGrow_cons, if_neg hc]
            have hcon : ({ it with target := ctv, constrained := true } : FlexItem).constrained
                = true := rfl
            rw [hcon, if_pos rfl]
            dsimp only at ih3 ⊢
            linarith [ih3]
          · intro hflip
            exfalso
            rw [unconCount_cons, unconCount_cons, if_neg hc] at hflip
            have hcon : ({ it with target := ctv, constrained := true } : FlexItem).constrained
                = true := rfl
            rw [hcon, if_pos rfl] at hflip
            omega
        | false =>
          have hacc2 : (⟨if false then acc.rfg - it.flexGrow else acc.rfg,
              acc.consumed + (ctv - it.target), acc.still || !false⟩ : PassAcc) =
              ⟨acc.rfg, acc.consumed + (ctv - it.target), acc.still || true⟩ := by
            simp
          rw [hacc2] at hp1 hp2
          obtain ⟨ih1, ih2, ih3, ih4⟩ :=
            ih ⟨acc.rfg, acc.consumed + (ctv - it.target), acc.still || true⟩
          rw [hp1, hp2]
          have hcon : ({ it with target := ctv, constrained := false } : FlexItem).constrained
              = false := rfl
          refine ⟨by simpa using ih1, ?_, ?_, ?_⟩
          · rw [unconCount_cons, unconCount_cons, if_neg hc, hcon, if_neg (by simp)]
            omega
          · rw [sumUnconGrow_cons, sumUnconGrow_cons, if_neg hc, hcon, if_neg (by simp)]
            have hgrow : ({ it with target := ctv, constrained := false } : FlexItem).flexGrow
                = it.flexGrow := rfl
            rw [hgrow]
            dsimp only at ih3 ⊢
            linarith [ih3]
          · intro hflip
            rw [unconCount_cons, unconCount_cons, if_neg hc, hcon, if_neg (by simp)] at hflip
            obtain ⟨hA, hB⟩ := ih4 (by omega)
            have hfree : ctv = it.target + it.flexGrow / acc.rfg * space := by
              have h2 : (clampGrow it (it.target + it.flexGrow / acc.rfg * space)).2 = false := by
                rw [hclamp]
              have h1 : (clampGrow it (it.target + it.flexGrow / acc.rfg * space)).1 = ctv := by
                rw [hclamp]
              rw [← h1]
              exact clampGrow_free it _ h2
            refine ⟨by rw [hA], ?_⟩
            rw [hB, hfree, sumUnconPosGrow_cons]
            rw [if_pos ⟨by simpa using hc, hg⟩]
            dsimp only
            ring
      · -- unconstrained item with non-positive grow factor: skipped
        have hp1 : (passItems space (it :: rest) acc).1 = it :: (passItems space rest acc).1 := by
          simp [passItems, hc, hg]
        have hp2 : (passItems space (it :: rest) acc).2 = (passItems space rest acc).2 := by
          simp [passItems, hc, hg]
        obtain ⟨ih1, ih2, ih3, ih4⟩ := ih acc
        rw [hp1, hp2]
        refine ⟨by simpa using ih1, ?_, ?_, ?_⟩
        · simpa [unconCount_cons, hc] using ih2
        · rw [sumUnconGrow_cons, sumUnconGrow_cons, if_neg hc]
          linarith [ih3]
        · intro hflip
          rw [unconCount_cons, unconCount_cons, if_neg hc] at hflip
          obtain ⟨hA, hB⟩ := ih4 (by omega)
          refine ⟨hA, ?_⟩
          rw [hB, sumUnconPosGrow_cons]
          have hno : ¬(it.constrained = false ∧ it.flexGrow > 0) := fun hh => hg hh.2
          rw [if_neg hno]
          ring_nf

theorem runGrowLoop_guard_false (s : GrowState) (h : growGuard s = false) :
    ∀ k, runGrowLoop k s = s
  | 0 => rfl
  | k + 1 => by simp [runGrowLoop, h]

theorem runGrowLoop_stable :
    ∀ (n : Nat) (s : GrowState),
      s.remainingFlexGrow = sumUnconGrow s.items →
      (∀ it ∈ s.items, 0 ≤ it.flexGrow) →
      unconCount s.items ≤ n →
      ∀ extra, runGrowLoop (n + 2 + extra) s = runGrowLoop (n + 2) s := by
  intro n
  induction n with
  | zero =>
    intro s hinv hnn hcnt extra
    have h0 : unconCount s.items = 0 := Nat.le_zero.mp hcnt
    have hs0 : sumUnconGrow s.items = 0 := unconCount_zero_sum s.items h0
    have hguard : growGuard s = false := by
      simp [growGuard, hinv, hs0]
    rw [runGrowLoop_guard_false s hguard, runGrowLoop_guard_false s hguard]
  | succ m ih =>
    intro s hinv hnn hcnt extra
    by_cases hguard : growGuard s = true
    · have hrw : ∀ k, runGrowLoop (k + 1) s =
          (if (growPass s).2 < 1/100 then (growPass s).1
           else runGrowLoop k (growPass s).1) := by
        intro k
        simp [runGrowLoop, hguard]
      have e1 : m + 1 + 2 + extra = (m + 2 + extra) + 1 := by omega
      have e2 : m + 1 + 2 = (m + 2) + 1 := by omega
      rw [e1, e2, hrw, hrw]
      by_cases hbreak : (growPass s).2 < 1/100
      · rw [if_pos hbreak, if_pos hbreak]
      · simp only [if_neg hbreak]
        have hspec := passItems_spec s.remainingSpace s.items ⟨s.remainingFlexGrow, 0, false⟩
        obtain ⟨hmap, hle, hinv3, hflip⟩ := hspec
        have hitems : (growPass s).1.items =
            (passItems s.remainingSpace s.items ⟨s.remainingFlexGrow, 0, false⟩).1 := rfl
        have hrfg : (growPass s).1.remainingFlexGrow =
            (passItems s.remainingSpace s.items ⟨s.remainingFlexGrow, 0, false⟩).2.rfg := rfl
        have hrs : (growPass s).1.remainingSpace =
            s.remainingSpace -
              (passItems s.remainingSpace s.items ⟨s.remainingFlexGrow, 0, false⟩).2.consumed := rfl
        have hcons : (growPass s).2 =
            (passItems s.remainingSpace s.items ⟨s.remainingFlexGrow, 0, false⟩).2.consumed := rfl
        have hinv2 : (growPass s).1.remainingFlexGrow = sumUnconGrow (growPass s).1.items := by
          rw [hrfg, hitems]
          have := hinv3
          rw [hinv] at this
          linarith [this]
        have hnn2 : ∀ it ∈ (growPass s).1.items, 0 ≤ it.flexGrow := by
          intro it hit
          rw [hitems] at hit
          have : it.flexGrow ∈
              ((passItems s.remainingSpace s.items ⟨s.remainingFlexGrow, 0, false⟩).1.map
                (fun x => x.flexGrow)) := List.mem_map_of_mem _ hit
          rw [hmap] at this
          obtain ⟨it0, hit0, heq⟩ := List.mem_map.mp this
          rw [← heq]
          exact hnn it0 hit0
        by_cases hnoflip :
            unconCount (passItems s.remainingSpace s.items
              ⟨s.remainingFlexGrow, 0, false⟩).1 = unconCount s.items
        · -- no item was newly constrained: the pass consumed the whole space
          obtain ⟨hA, hB⟩ := hflip hnoflip
          have hgpos : s.remainingFlexGrow > 0 := by
            simp only [growGuard, Bool.and_eq_true, decide_eq_true_eq] at hguard
            exact hguard.1.2
          have hconsumed :
              (passItems s.remainingSpace s.items
                ⟨s.remainingFlexGrow, 0, false⟩).2.consumed = s.remainingSpace := by
            rw [hB]
            simp only [zero_add]
            rw [sumUnconPosGrow_eq s.items hnn, ← hinv]
            rw [div_self (ne_of_gt hgpos), one_mul]
          have hguard2 : growGuard (growPass s).1 = false := by
            have : (growPass s).1.remainingSpace = 0 := by
              rw [hrs, hconsumed]
              ring
            simp [growGuard, this]
          rw [runGrowLoop_guard_false _ hguard2, runGrowLoop_guard_false _ hguard2]
        · have hlt : unconCount (growPass s).1.items < unconCount s.items := by
            rw [hitems]
            exact lt_of_le_of_ne hle hnoflip
          have hcnt2 : unconCount (growPass s).1.items ≤ m := by omega
          exact ih (growPass s).1 hinv2 hnn2 hcnt2 extra
    · have hg : growGuard s = false := by
        cases hgb : growGuard s
        · rfl
        · exact absurd hgb hguard
      rw [runGrowLoop_guard_false s hg, runGrowLoop_guard_false s hg]

/-! Helper lemmas for the shrink case and the positioning fold. -/

/-- The shrink-case target of one child, written directly on the child
style: proportional reduction floored at zero, then raised to the min
size when one is declared.  The max size does not occur in this formula. -/
def shrinkSpecTarget (avail t : ℚ) (c : ChildStyle) : ℚ :=
  match c.flexShrink with
  | some s =>
    if s > 0 then
      let t0 := max 0 (baseSize c - |avail| * (s * baseSize c / t))
      match c.minSize with
      | some m => if t0 < m then m else t0
      | none => t0
    else baseSize c
  | none => baseSize c

theorem shrinkItem_target (avail t : ℚ) (c : ChildStyle) :
    (shrinkItem avail t (mkFlexItem c)).target = shrinkSpecTarget avail t c := by
  cases hs : c.flexShrink with
  | none => simp [shrinkItem, shrinkSpecTarget, mkFlexItem, hs]
  | some s =>
    by_cases hpos : s > 0
    · cases hm : c.minSize <;>
        simp [shrinkItem, shrinkSpecTarget, mkFlexItem, hs, hm, hpos]
    · simp [shrinkItem, shrinkSpecTarget, mkFlexItem, hs, hpos]

theorem reassembleSizes_filter (f : ChildStyle → ℚ) :
    ∀ cs : List ChildStyle,
      reassembleSizes cs ((cs.filter (fun c => isFlexItem c)).map f) =
        cs.map (fun c => if isFlexItem c then f c else c.size) := by
  intro cs
  induction cs with
  | nil => simp [reassembleSizes]
  | cons c rest ih =>
    by_cases h : isFlexItem c
    · simp [reassembleSizes, List.filter_cons, h, ih]
    · simp [reassembleSizes, List.filter_cons, h, ih]

theorem layoutRowSizes_shrink (contentExtent gap : ℚ) (children : List ChildStyle) (t : ℚ)
    (ht : totalShrinkFactors (children.filter (fun c => isFlexItem c)) = some t)
    (htpos : t > 0)
    (hneg : rowAvailableSpace contentExtent gap children < 0) :
    layoutRowSizes contentExtent gap children =
      children.map (fun c =>
        if isFlexItem c then
          shrinkSpecTarget (rowAvailableSpace contentExtent gap children) t c
        else c.size) := by
  rw [layoutRowSizes, ht, flexResolve]
  rw [if_neg (fun hh => absurd hh.1 (by linarith))]
  rw [if_pos ⟨hneg, htpos⟩]
  have hmap : List.map (fun it => it.target)
      (List.map (shrinkItem (rowAvailableSpace contentExtent gap children) t)
        (List.map mkFlexItem (children.filter (fun c => isFlexItem c)))) =
      List.map (shrinkSpecTarget (rowAvailableSpace contentExtent gap children) t)
        (children.filter (fun c => isFlexItem c)) := by
    rw [List.map_map, List.map_map]
    apply List.map_congr_left
    intro c hc
    exact shrinkItem_target _ _ c
  rw [hmap, reassembleSizes_filter]

theorem layoutColumnSizes_shrink (contentExtent gap : ℚ) (children : List ChildStyle) (t : ℚ)
    (ht : totalShrinkFactors (children.filter (fun c => isFlexItem c)) = some t)
    (htpos : t > 0)
    (hneg : columnAvailableSpace contentExtent gap children < 0) :
    layoutColumnSizes contentExtent gap children =
      children.map (fun c =>
        if isFlexItem c then
          shrinkSpecTarget (columnAvailableSpace contentExtent gap children) t c
        else c.size) := by
  rw [layoutColumnSizes, ht, flexResolve]
  rw [if_neg (fun hh => absurd hh.1 (by linarith))]
  rw [if_pos ⟨hneg, htpos⟩]
  have hmap : List.map (fun it => it.target)
      (List.map (shrinkItem (columnAvailableSpace contentExtent gap children) t)
        (List.map mkFlexItem (children.filter (fun c => isFlexItem c)))) =
      List.map (shrinkSpecTarget (columnAvailableSpace contentExtent gap children) t)
        (children.filter (fun c => isFlexItem c)) := by
    rw [List.map_map, List.map_map]
    apply List.map_congr_left
    intro c hc
    exact shrinkItem_target _ _ c
  rw [hmap, reassembleSizes_filter]

theorem placeMain_two (gap sb sa : ℚ) (isSA : Bool) (cur : ℚ) (c d : PosChild)
    (ds : List PosChild) :
    placeMain gap sb sa isSA cur (c :: d :: ds) =
      (cur + c.marginStart) ::
        placeMain gap sb sa isSA
          (cur + c.marginStart + c.size + c.marginEnd + gap + sb +
            (if isSA then sa else 0)) (d :: ds) := rfl

theorem placeMain_merge (gap sb sa : ℚ) :
    ∀ (cs : List PosChild) (cur : ℚ),
      placeMain gap sb sa false cur cs = placeMain (gap + sb) 0 sa false cur cs := by
  intro cs
  induction cs with
  | nil => intro cur; rfl
  | cons c rest ih =>
    intro cur
    cases rest with
    | nil => rfl
    | cons d ds =>
      rw [placeMain_two, placeMain_two]
      have hnext : cur + c.marginStart + c.size + c.marginEnd + gap + sb +
            (if (false : Bool) then sa else 0) =
          cur + c.marginStart + c.size + c.marginEnd + (gap + sb) + 0 +
            (if (false : Bool) then sa else 0) := by
        norm_num
        ring
      rw [hnext, ih]

/-! Claim theorems. -/

/-- Element used for the cache-invalidation scenario: one live element with
class list A, no inline style and no cached styles yet. -/
def c1Element : UIElem := ⟨["A"], none, none, none⟩

/-- Registry after declaring class A as color red. -/
def c1Reg1 : List (String × StyleObj) := registerClass [] "A" "color: red"

/-- First style query, which fills the element cache. -/
def c1First : List (String × Val) × UIElem := getInstanceStyles c1Reg1 c1Element

/-- State after mutating class A to color blue through setClassStyle. -/
def c1After : List (String × StyleObj) × List UIElem :=
  setClassStyle c1Reg1 [c1First.2] "A" "color: blue"

/-- Style returned by the next getInstanceStyles call on the element after
the class mutation. -/
def c1Queried : List (String × Val) :=
  match c1After.2 with
  | e :: _ => (getInstanceStyles c1After.1 e).1
  | [] => []

/-- C1.  The claim states that after setClassStyle for a class, every live
element referencing that class has its cached effective style invalidated,
so the next getInstanceStyles reflects the mutated class.  The code writes
undefined to the field named computedStyles (plural) while the cache read
by getInstanceStyles lives in the field named computedStyle (singular), so
the cache survives: after declaring A as red, querying (which caches red),
and redeclaring A as blue, the next query still returns red even though a
fresh merge of the registered class yields blue. -/
theorem c1_class_mutation_stale_cache :
    c1First.1 = [("color", Val.str "red")] ∧
    mergeStyles [parseStyle "color: blue"] = [("color", Val.str "blue")] ∧
    c1Queried = [("color", Val.str "red")] ∧
    c1Queried ≠ [("color", Val.str "blue")] := by decide

/-- Unconstrained grow item of factor one with zero base size. -/
def c2Free : ChildStyle := ⟨some 1, some 1, some (.num 0), none, none, 0, 0, 0⟩

/-- Grow item of factor one with zero base size and max size 50. -/
def c2Capped : ChildStyle := ⟨some 1, some 1, some (.num 0), none, some 50, 0, 0, 0⟩

/-- C2.  With 300 available units and two grow items of factor one, one
capped at 50: when the unconstrained item is iterated first the solver
yields 250 and 50 as the claim states, but when the capped item is
iterated first the running grow pool is reduced during the same pass while
the pass still distributes against the stale remaining space, so the
unconstrained item receives the whole 300 and the children overflow the
container by 50.  This contradicts the claimed order-independent result of
exactly 250 with no overshoot. -/
theorem c2_grow_clamp_order_dependent :
    layoutRowSizes 300 0 [c2Free, c2Capped] = [250, 50] ∧
    layoutRowSizes 300 0 [c2Capped, c2Free] = [50, 300] ∧
    (50 : ℚ) + 300 > 300 := by
  refine ⟨?_, ?_, by norm_num⟩ <;>
    norm_num [layoutRowSizes, rowAvailableSpace, flexResolve, initGrowState, runGrowLoop,
      growGuard, growPass, passItems, clampGrow, mkFlexItem, totalShrinkFactors,
      reassembleSizes, isFlexItem, jsGrow, shrinkPos, baseSize, outerFixed, outerBase,
      c2Free, c2Capped, List.filter]

/-- C3.  The merged style of an ordered list of sources satisfies the
cascade rule: for every property, the result is the value of the last
source that sets it importantly, and when no source sets it importantly,
the value of the last source that sets it at all (so a non-important
earlier value is overwritten by any later source, while an important value
can only be overwritten by a later important one).  In particular red
important followed by blue non-important merges to red, and red important
followed by green important merges to green. -/
theorem c3_cascade_merge :
    (∀ (ss : List StyleObj) (p : String), objGet (mergeStyles ss) p = cascadeSpec p ss) ∧
    mergeStyles [⟨[("color", .str "red")], ["color"]⟩, ⟨[("color", .str "blue")], []⟩] =
      [("color", Val.str "red")] ∧
    mergeStyles [⟨[("color", .str "red")], ["color"]⟩, ⟨[("color", .str "green")], ["color"]⟩] =
      [("color", Val.str "green")] :=
  ⟨mergeStyles_objGet, by decide, by decide⟩

/-- Grow item of a given factor with zero base size and no constraints. -/
def c4Item (g : ℚ) : ChildStyle := ⟨some g, some 1, some (.num 0), none, none, 0, 0, 0⟩

set_option maxHeartbeats 1600000 in
/-- C4.  Three items with grow factors one, one and two in a container with
300 content units and zero base sizes receive 75, 75 and 150, and the item
with factor two receives 150 in every arrangement (the three rows below
cover the distinct arrangements); the column algorithm gives the same
sizes. -/
theorem c4_proportional_distribution :
    layoutRowSizes 300 0 [c4Item 1, c4Item 1, c4Item 2] = [75, 75, 150] ∧
    layoutRowSizes 300 0 [c4Item 2, c4Item 1, c4Item 1] = [150, 75, 75] ∧
    layoutRowSizes 300 0 [c4Item 1, c4Item 2, c4Item 1] = [75, 150, 75] ∧
    layoutColumnSizes 300 0 [c4Item 1, c4Item 1, c4Item 2] = [75, 75, 150] := by
  refine ⟨?_, ?_, ?_, ?_⟩ <;>
    norm_num [layoutRowSizes, layoutColumnSizes, rowAvailableSpace, columnAvailableSpace,
      flexResolve, initGrowState, runGrowLoop, growGuard, growPass, passItems, clampGrow,
      mkFlexItem, totalShrinkFactors, reassembleSizes, isFlexItem, jsGrow, shrinkPos,
      baseSize, outerFixed, outerBase, c4Item, List.filter]

/-- C5.  The iterative grow loop terminates on every input with
non-negative grow factors: starting from the initial state built by the
layout routines (all items unconstrained at their base sizes, pool equal
to the total grow factor, any available space, any min and max bounds),
running the loop with any fuel beyond item count plus two returns the same
state as the bound itself, because every executed pass either constrains a
new item or consumes the whole remaining space, after which the guard or
the minimum-progress cutoff stops the loop. -/
theorem c5_grow_loop_terminates (items : List FlexItem) (avail : ℚ)
    (hnn : ∀ it ∈ items, 0 ≤ it.flexGrow)
    (hun : ∀ it ∈ items, it.constrained = false) (extra : Nat) :
    runGrowLoop (items.length + 2 + extra) (initGrowState items avail) =
      runGrowLoop (items.length + 2) (initGrowState items avail) := by
  apply runGrowLoop_stable
  · show (items.map (fun it => it.flexGrow)).sum = sumUnconGrow items
    unfold sumUnconGrow
    congr 1
    apply List.map_congr_left
    intro it hit
    rw [hun it hit]
    simp
  · exact hnn
  · exact List.length_filter_le _ _

/-- Sample item for the termination witness. -/
def c5Item : FlexItem := ⟨1, some 1, 0, none, some 50, 0, false⟩

theorem c5_grow_loop_terminates_witness :
    runGrowLoop ([c5Item].length + 2 + 5) (initGrowState [c5Item] 300) =
      runGrowLoop ([c5Item].length + 2) (initGrowState [c5Item] 300) :=
  c5_grow_loop_terminates [c5Item] 300 (by decide) (by decide) 5

/-- Fixed child of width 100 (zero grow, zero shrink). -/
def c6Fixed : ChildStyle := ⟨none, some 0, none, none, none, 100, 0, 0⟩

/-- Shrinking child with factor one, base size 40 and no min or max. -/
def c6Shrink : ChildStyle := ⟨none, some 1, some (.num 40), none, none, 40, 0, 0⟩

/-- C6 counterexample.  In a container of 50 units with a fixed child of
width 100 and a shrinking child of base 40 (shrink factor one, no min),
the available space is minus 90 and the total shrink factor times base is
40, so the claimed target, base reduced proportionally with no min to
clamp, is minus 50; the code however floors the reduction at zero and
yields 0, so the claimed equality fails at this input. -/
theorem c6_shrink_floor_counterexample :
    rowAvailableSpace 50 0 [c6Fixed, c6Shrink] = -90 ∧
    baseSize c6Shrink -
      |rowAvailableSpace 50 0 [c6Fixed, c6Shrink]| * (1 * baseSize c6Shrink / 40) = -50 ∧
    layoutRowSizes 50 0 [c6Fixed, c6Shrink] = [100, 0] ∧
    ¬ layoutRowSizes 50 0 [c6Fixed, c6Shrink] = [100, -50] := by
  refine ⟨?_, ?_, ?_, ?_⟩ <;>
    norm_num [layoutRowSizes, rowAvailableSpace, flexResolve, initGrowState, runGrowLoop,
      growGuard, growPass, passItems, clampGrow, mkFlexItem, totalShrinkFactors, shrinkItem,
      reassembleSizes, isFlexItem, jsGrow, shrinkPos, baseSize, outerFixed, outerBase,
      c6Fixed, c6Shrink, List.filter]

/-- C6 amended.  In the shrink case (available space negative, total
shrink factor times base size a positive number), every fixed child keeps
its size and every flex child receives its base size reduced
proportionally to shrink factor times base size, floored at zero, then
raised to its declared min size when present; the per-item formula
shrinkSpecTarget never consults the declared max size.  Both the row and
the column routine satisfy this. -/
theorem c6_shrink_formula (contentExtent gap : ℚ) (children : List ChildStyle) (t : ℚ) :
    (totalShrinkFactors (children.filter (fun c => isFlexItem c)) = some t → t > 0 →
      rowAvailableSpace contentExtent gap children < 0 →
      layoutRowSizes contentExtent gap children =
        children.map (fun c =>
          if isFlexItem c then
            shrinkSpecTarget (rowAvailableSpace contentExtent gap children) t c
          else c.size)) ∧
    (totalShrinkFactors (children.filter (fun c => isFlexItem c)) = some t → t > 0 →
      columnAvailableSpace contentExtent gap children < 0 →
      layoutColumnSizes contentExtent gap children =
        children.map (fun c =>
          if isFlexItem c then
            shrinkSpecTarget (columnAvailableSpace contentExtent gap children) t c
          else c.size)) :=
  ⟨fun ht htpos hneg => layoutRowSizes_shrink contentExtent gap children t ht htpos hneg,
   fun ht htpos hneg => layoutColumnSizes_shrink contentExtent gap children t ht htpos hneg⟩

theorem c6_shrink_formula_witness :
    layoutRowSizes 10 0 [c6Shrink] =
      [c6Shrink].map (fun c =>
        if isFlexItem c then shrinkSpecTarget (rowAvailableSpace 10 0 [c6Shrink]) 40 c
        else c.size) :=
  (c6_shrink_formula 10 0 [c6Shrink] 40).1
    (by norm_num [totalShrinkFactors, isFlexItem, jsGrow, shrinkPos, baseSize, c6Shrink,
      List.filter])
    (by norm_num)
    (by norm_num [rowAvailableSpace, isFlexItem, jsGrow, shrinkPos, baseSize, outerFixed,
      outerBase, c6Shrink, List.filter])

/-- C7 counterexample.  The claim states that the shorthand flex one parses
with flexBasis the number 0; the parser stores the string zero instead
(which downstream reads through a falsy parseFloat fall back to the
current size, unlike a numeric zero). -/
theorem c7_flex_basis_string_counterexample :
    objGet (parseStyle "flex: 1").computedStyle "flexBasis" = some (Val.str "0") ∧
    some (Val.str "0") ≠ some (Val.num 0) := by decide

/-- C7 amended.  The shorthand parses as claimed except that the basis of
the bare-number forms is the string zero, not the number zero: flex one
gives grow 1, shrink 1, basis the string zero; flex auto gives grow 1,
shrink 1, basis auto; flex with 2, 3 and 50 percent gives grow 2, shrink
3, basis the 50 percent string; and every single bare-number token parses
to that number as grow with shrink 1 and basis the string zero. -/
theorem c7_flex_shorthand (tok : List Char) (hnum : isNumericLitChars tok = true) :
    parseStyle "flex: 1" =
      ⟨[("flexGrow", Val.num 1), ("flexShrink", Val.num 1), ("flexBasis", Val.str "0")], []⟩ ∧
    parseStyle "flex: auto" =
      ⟨[("flexGrow", Val.num 1), ("flexShrink", Val.num 1), ("flexBasis", Val.str "auto")],
        []⟩ ∧
    parseStyle "flex: 2 3 50%" =
      ⟨[("flexGrow", Val.num 2), ("flexShrink", Val.num 3), ("flexBasis", Val.str "50%")],
        []⟩ ∧
    parseFlexShorthandParts [tok] [] =
      [("flexGrow", convertValue tok), ("flexShrink", Val.num 1), ("flexBasis", Val.str "0")] ∧
    convertValue tok = Val.num (numLitToRat tok) := by
  have hauto : tok ≠ "auto".data := by
    rintro rfl
    exact absurd hnum (by decide)
  have hnone : tok ≠ "none".data := by
    rintro rfl
    exact absurd hnum (by decide)
  have hinit : tok ≠ "initial".data := by
    rintro rfl
    exact absurd hnum (by decide)
  refine ⟨by decide, by decide, by decide, ?_, ?_⟩
  · simp only [parseFlexShorthandParts]
    rw [if_neg hauto, if_neg hnone, if_neg hinit]
    rfl
  · rw [convertValue, if_pos hnum]

theorem c7_flex_shorthand_witness :
    parseFlexShorthandParts ["1".data] [] =
      [("flexGrow", convertValue "1".data), ("flexShrink", Val.num 1),
        ("flexBasis", Val.str "0")] :=
  (c7_flex_shorthand "1".data (by decide)).2.2.2.1

/-- C8.  For space-between in a non-wrapping column: with at least two
children the offsets equal those of a start layout whose gap is widened by
slack divided by child count minus one (the slack inserted between
consecutive children); with exactly one child the guard yields zero extra
spacing and the child sits at the content start plus its margin (no
division by zero); and concretely two zero-sized children with 100 units
of slack land at offsets 0 and 100 from the content start. -/
theorem c8_space_between :
    (∀ (contentExtent padStart borderStart gap : ℚ) (children : List PosChild),
        2 ≤ children.length →
        layoutColumnMainOffsets contentExtent padStart borderStart gap "space-between"
            children =
          placeMain
            (gap + justifySlack contentExtent gap children / ((children.length : ℚ) - 1))
            0 0 false (padStart + borderStart) children) ∧
    (∀ (contentExtent padStart borderStart gap : ℚ) (c : PosChild),
        layoutColumnMainOffsets contentExtent padStart borderStart gap "space-between" [c] =
          [padStart + borderStart + c.marginStart]) ∧
    layoutColumnMainOffsets 100 0 0 0 "space-between" [⟨0, 0, 0⟩, ⟨0, 0, 0⟩] = [0, 100] := by
  have hne1 : ("space-between" : String) ≠ "center" := by decide
  have hne2 : ("space-between" : String) ≠ "end" := by decide
  have hne3 : ("space-between" : String) ≠ "space-around" := by decide
  refine ⟨?_, ?_, ?_⟩
  · intro contentExtent padStart borderStart gap children h2
    have hlen : children.length > 1 := by omega
    simp only [layoutColumnMainOffsets]
    norm_num [hlen, hne1, hne2, hne3]
    rw [placeMain_merge]
  · intro contentExtent padStart borderStart gap c
    simp only [layoutColumnMainOffsets]
    norm_num [hne1, hne2, hne3, placeMain]
  · norm_num [layoutColumnMainOffsets, justifySlack, placeMain, outerPos, hne1, hne2, hne3]

theorem c8_space_between_witness :
    layoutColumnMainOffsets 300 0 0 0 "space-between"
        [(⟨20, 0, 0⟩ : PosChild), ⟨30, 0, 0⟩] =
      placeMain
        (0 + justifySlack 300 0 [(⟨20, 0, 0⟩ : PosChild), ⟨30, 0, 0⟩] /
          ((([(⟨20, 0, 0⟩ : PosChild), ⟨30, 0, 0⟩].length : ℚ)) - 1))
        0 0 false (0 + 0) [(⟨20, 0, 0⟩ : PosChild), ⟨30, 0, 0⟩] :=
  c8_space_between.1 300 0 0 0 [⟨20, 0, 0⟩, ⟨30, 0, 0⟩] (by decide)

/-- C9.  An anchored element with no anchor target, target point center and
self point top-left, with zero offsets and an existing parent, ends with
its top-left corner exactly on the parent center; and whenever target
resolution yields nothing, positioning leaves the element unchanged. -/
theorem c9_anchor_parent_center :
    (∀ (p inst : Geom) (tagLookup : String → Option Geom),
        positionAnchor tagLookup (some p) ⟨none, "center", "top-left", 0, 0⟩ inst =
          { inst with x := p.x + p.w / 2, y := p.y + p.h / 2 }) ∧
    (∀ (tagLookup : String → Option Geom) (parent : Option Geom) (props : AnchorProps)
        (inst : Geom),
        resolveAnchorTarget parent tagLookup props.anchorTarget = none →
        positionAnchor tagLookup parent props inst = inst) := by
  constructor
  · intro p inst tagLookup
    show ({ inst with
        x := inst.x + ((anchorPointAbs p "center").1 -
          (inst.x + (anchorOffsets inst "top-left").1) + 0),
        y := inst.y + ((anchorPointAbs p "center").2 -
          (inst.y + (anchorOffsets inst "top-left").2) + 0) } : Geom) = _
    have hc : anchorPointAbs p "center" = (p.x + p.w / 2, p.y + p.h / 2) := by
      rw [anchorPointAbs, anchorOffsets]
      rw [if_neg (by decide), if_neg (by rintro (h | h) <;> exact absurd h (by decide)),
        if_neg (by decide), if_neg (by rintro (h | h) <;> exact absurd h (by decide)),
        if_pos rfl]
    have ht : anchorOffsets inst "top-left" = (0, 0) := by
      rw [anchorOffsets, if_pos rfl]
    rw [hc, ht]
    simp only [Geom.mk.injEq]
    norm_num
  · intro tagLookup parent props inst h
    rw [positionAnchor, h]

theorem c9_anchor_parent_center_witness :
    positionAnchor (fun _ => none) none
      ⟨some (ATarget.str "missing"), "center", "top-left", 0, 0⟩ ⟨3, 4, 8, 8⟩ =
      ⟨3, 4, 8, 8⟩ :=
  c9_anchor_parent_center.2 (fun _ => none) none
    ⟨some (ATarget.str "missing"), "center", "top-left", 0, 0⟩ ⟨3, 4, 8, 8⟩ (by decide)

/-- C10.  Fit-content sizing is keyed on strict equality with the string
true: for any other effective style value of fitContent (a boolean, a
different string, a number, or absence) the projected layout flag is false
and step 6 of processInstance leaves the container geometry untouched. -/
theorem c10_fit_content_strict_string (styles : List (String × Val))
    (h : objGet styles "fitContent" ≠ some (Val.str "true")) :
    (getLayoutProperties styles).fitContent = false ∧
    (∀ (box : BoxModelR) (children : List FitChild) (g : Geom),
        processFitContentStep (getLayoutProperties styles) box children g = g) := by
  have hf : (getLayoutProperties styles).fitContent = false := by
    simp only [getLayoutProperties, decide_eq_false_iff_not]
    exact h
  exact ⟨hf, fun box children g => by rw [processFitContentStep, hf]; simp⟩

theorem c10_fit_content_strict_string_witness :
    (getLayoutProperties [("fitContent", Val.bool true)]).fitContent = false ∧
    processFitContentStep (getLayoutProperties [("fitContent", Val.bool true)])
      ⟨⟨0, 0, 0, 0⟩, ⟨0, 0, 0, 0⟩⟩ [] ⟨0, 0, 40, 40⟩ = ⟨0, 0, 40, 40⟩ :=
  ⟨(c10_fit_content_strict_string [("fitContent", Val.bool true)] (by decide)).1,
   (c10_fit_content_strict_string [("fitContent", Val.bool true)] (by decide)).2
     ⟨⟨0, 0, 0, 0⟩, ⟨0, 0, 0, 0⟩⟩ [] ⟨0, 0, 40, 40⟩⟩
